import Mathlib

/-!
Verification of the returns & risk analytics module of the Machelohub
stock-dashboard application (`src/app.py`).

The only original computation in the application is `calculate_cagr` and
`calculate_annual_volatility`, operating on a pandas DataFrame of historical
prices.  We embed the DataFrame shallowly: a `History` carries the list of
column names, the date index (days as natural numbers), and per-column data
as an association list from column name to the list of values.  Prices are
modelled as rationals (exact arithmetic in place of IEEE floats); the final
CAGR/volatility values, which involve real powers and square roots, live
in `ℝ`.

`dropna` after the forward-fill resample is a no-op in this embedding:
rational values have no NaN, and forward-filling from the first observation
leaves no leading gap, so we model `resample('1D').ffill().dropna()` as the
calendar-day forward fill alone.
-/

set_option autoImplicit false

namespace Machelohub

/-- A pandas DataFrame of historical prices, shallowly embedded:
column names, a date index (days since an arbitrary epoch), and the data
of each column keyed by its name.  `len(history)` is `index.length`. -/
structure History where
  columns : List String
  index : List Nat
  data : List (String × List ℚ)

/-- `col.lower().replace(" ", "")`: the normalisation the source applies to a
column name before comparing it with `"adjclose"` — lowercase every
character, then delete every occurrence of the one-character pattern `" "`. -/
def normName (s : String) : String :=
  String.mk ((s.data.map Char.toLower).filter fun c => c ≠ ' ')

/-- `next((col for col in history.columns if col.lower().replace(" ", "") == "adjclose"), None)`:
the first column whose normalised name is `"adjclose"`. -/
def findAdjCol (cols : List String) : Option String :=
  cols.find? (fun c => normName c == "adjclose")

/-- One step of the calendar-day forward fill: `ffillGo n d v xs` emits `n`
calendar days starting at day `d`, taking the observed value when the next
observation falls on the current day and carrying `v` forward otherwise. -/
def ffillGo : Nat → Nat → ℚ → List (Nat × ℚ) → List (Nat × ℚ)
  | 0, _, _, _ => []
  | n + 1, d, v, [] => (d, v) :: ffillGo n (d + 1) v []
  | n + 1, d, v, (d2, v2) :: rest =>
    if d2 ≤ d then (d, v2) :: ffillGo n (d + 1) v2 rest
    else (d, v) :: ffillGo n (d + 1) v ((d2, v2) :: rest)

/-- The last date of a series (0 for the empty series). -/
def lastDate (xs : List (Nat × ℚ)) : Nat := (xs.map Prod.fst).getLastD 0

/-- `series.resample('1D').ffill().dropna()`: one entry per calendar day from
the first to the last date, gaps filled by carrying the last known value
forward.  (`dropna` is a no-op here: values are exact rationals and the fill
starts at the first observation, so no NaN survives.) -/
def resample1Dffill (xs : List (Nat × ℚ)) : List (Nat × ℚ) :=
  match xs with
  | [] => []
  | (d0, v0) :: rest => ffillGo (lastDate ((d0, v0) :: rest) + 1 - d0) d0 v0 ((d0, v0) :: rest)

/-- `xs.iloc[-k]` for a series of `(date, value)` pairs, returning the value:
the `k`-th entry counting 1-indexed from the end. -/
def ilocNeg (xs : List (Nat × ℚ)) (k : Nat) : ℚ := (xs.getD (xs.length - k) (0, 0)).snd

/-- `round(x, 2)`: round to two decimal places.  (Python rounds ties to even
on binary floats; in this exact embedding we use nearest-integer rounding of
`100 * x`, which agrees away from exact ties.) -/
noncomputable def round2 (x : ℝ) : ℝ := ((round (x * 100) : ℤ) : ℝ) / 100

/-- `((end_price / start) ** (1 / yr)) - 1` over the reals. -/
noncomputable def cagrOf (end_price start : ℚ) (yr : Nat) : ℝ :=
  ((end_price : ℝ) / (start : ℝ)) ^ ((1 : ℝ) / (yr : ℝ)) - 1

/-- The body of the `for yr in years` loop of `calculate_cagr`: the entry the
loop stores for a horizon `yr`, `none` standing for the string `"N/A"`. -/
noncomputable def cagrEntry (end_price : ℚ) (start_price : List (Nat × ℚ)) (yr : Nat) :
    Option ℝ :=
  if 252 * yr ≤ start_price.length then
    some (round2 (cagrOf end_price (ilocNeg start_price (252 * yr)) yr * 100))
  else none

/-- `calculate_cagr(history, years)` of `src/app.py`: `none` when no adjusted
close column resolves or the history is empty, otherwise the list of
`(horizon, entry)` pairs (the Python dict keyed by `f"{yr}Y"`, keyed here by
`yr` itself). -/
noncomputable def calculate_cagr (hst : History) (years : List Nat) :
    Option (List (Nat × Option ℝ)) :=
  match findAdjCol hst.columns with
  | none => none
  | some adj_col =>
    if hst.index.length = 0 then none
    else
      let vals := (hst.data.lookup adj_col).getD []
      let end_price := vals.getLastD 0
      let start_price := resample1Dffill (hst.index.zip vals)
      some (years.map fun yr => (yr, cagrEntry end_price start_price yr))

/-- `prev, y :: rest ↦ (y / prev - 1) :: ...`: the tail of
`Series.pct_change()`, which computes `cur / prev - 1` at each position. -/
def pctGo : ℚ → List ℚ → List ℚ
  | _, [] => []
  | prev, y :: rest => (y / prev - 1) :: pctGo y rest

/-- `series.pct_change().dropna()`: day-over-day percentage changes; the
first observation has no defined change and is dropped. -/
def pct_change (xs : List ℚ) : List ℚ :=
  match xs with
  | [] => []
  | x :: rest => pctGo x rest

/-- The mean of a list of rationals (`0` for the empty list, as `0 / 0 = 0`). -/
def listMean (xs : List ℚ) : ℚ := xs.sum / (xs.length : ℚ)

/-- Population variance: mean squared deviation from the mean, dividing by
`N` (not `N - 1`). -/
def popVar (xs : List ℚ) : ℚ :=
  (xs.map (fun x => (x - listMean xs) ^ 2)).sum / (xs.length : ℚ)

/-- `np.std(xs)`: the population standard deviation (`ddof = 0`). -/
noncomputable def npStd (xs : List ℚ) : ℝ := Real.sqrt ((popVar xs : ℝ))

/-- `calculate_annual_volatility(history)` of `src/app.py`: `none` when no
adjusted close column resolves or the history has fewer than 2 rows,
otherwise the annualised volatility percentage rounded to 2 decimals. -/
noncomputable def calculate_annual_volatility (hst : History) : Option ℝ :=
  match findAdjCol hst.columns with
  | none => none
  | some adj_col =>
    if hst.index.length < 2 then none
    else
      let daily_returns := pct_change ((hst.data.lookup adj_col).getD [])
      let daily_vol := npStd daily_returns
      let annual_vol := daily_vol * Real.sqrt 252
      some (round2 (annual_vol * 100))

/-- Multiply every value of column `col` by `c`, leaving the column list,
the index and the other columns unchanged. -/
def scaleCol (c : ℚ) (col : String) (hst : History) : History :=
  { hst with
    data := hst.data.map fun p =>
      if p.fst = col then (p.fst, p.snd.map fun x => c * x) else p }

/-- Day-over-day percentage change as the specification words it:
`(cur - prev) / prev`, the first observation dropped. -/
def specReturns (xs : List ℚ) : List ℚ :=
  List.zipWith (fun prev cur => (cur - prev) / prev) xs xs.tail

/-! ### Concrete histories used as evaluation points -/

/-- Two observations on consecutive days. -/
def hist1 : History := ⟨["Adj Close"], [0, 1], [("Adj Close", [100, 110])]⟩

/-- Two observations 255 days apart: only 2 raw rows, but 256 resampled days. -/
def histGap : History := ⟨["Adj Close"], [0, 255], [("Adj Close", [100, 110])]⟩

/-- Two observations 251 days apart: exactly 252 resampled days. -/
def hist252 : History := ⟨["Adj Close"], [0, 251], [("Adj Close", [100, 110])]⟩

/-- Two observations 503 days apart: exactly 504 resampled days. -/
def hist504 : History := ⟨["Adj Close"], [0, 503], [("Adj Close", [100, 110])]⟩

/-- A history with no column resolving to `"adjclose"`. -/
def histNoAdj : History := ⟨["Open", "Close"], [0, 1], [("Open", [1, 2])]⟩

/-- A history with zero rows. -/
def histEmpty : History := ⟨["Adj Close"], [], [("Adj Close", [])]⟩

/-- The resampled adjusted-close series of `hist504`: 504 calendar days. -/
def sp504 : List (Nat × ℚ) := resample1Dffill (hist504.index.zip [100, 110])

/-- The per-horizon entries `calculate_cagr hist504 [1, 2]` produces. -/
noncomputable def res504 : List (Nat × Option ℝ) :=
  [1, 2].map fun yr => (yr, cagrEntry 110 sp504 yr)

/-! ### Helper lemmas -/

theorem ffillGo_length (n : Nat) : ∀ (d : Nat) (v : ℚ) (xs : List (Nat × ℚ)),
    (ffillGo n d v xs).length = n := by
  induction n with
  | zero => intro d v xs; cases xs <;> rfl
  | succ n ih =>
    intro d v xs
    cases xs with
    | nil => simp [ffillGo, ih]
    | cons hd tl =>
      obtain ⟨d2, v2⟩ := hd
      rw [ffillGo]
      split <;> simp [ih]

theorem resample_length (d0 : Nat) (v0 : ℚ) (rest : List (Nat × ℚ)) :
    (resample1Dffill ((d0, v0) :: rest)).length =
      lastDate ((d0, v0) :: rest) + 1 - d0 := by
  simp [resample1Dffill, ffillGo_length]

theorem lastDate_cons_cons (d : Nat) (v : ℚ) (d2 : Nat) (v2 : ℚ)
    (rs : List (Nat × ℚ)) :
    lastDate ((d, v) :: (d2, v2) :: rs) = lastDate ((d2, v2) :: rs) := by
  simp [lastDate, List.getLastD_cons]

theorem lastDate_chain (rest : List (Nat × ℚ)) : ∀ (d : Nat) (v : ℚ),
    List.Chain' (fun p q => q.fst = p.fst + 1) ((d, v) :: rest) →
    lastDate ((d, v) :: rest) = d + rest.length := by
  induction rest with
  | nil => intro d v _; simp [lastDate]
  | cons hd tl ih =>
    intro d v hch
    obtain ⟨d2, v2⟩ := hd
    have h1 : d2 = d + 1 := (List.chain'_cons.mp hch).1
    have h2 := (List.chain'_cons.mp hch).2
    rw [lastDate_cons_cons, ih d2 v2 h2, h1]
    simp [Nat.add_assoc, Nat.add_comm 1 tl.length]

theorem ffillGo_chain (rest : List (Nat × ℚ)) : ∀ (d : Nat) (v w : ℚ),
    List.Chain' (fun p q => q.fst = p.fst + 1) ((d, v) :: rest) →
    ffillGo (rest.length + 1) d w ((d, v) :: rest) = (d, v) :: rest := by
  induction rest with
  | nil => intro d v w _; simp [ffillGo]
  | cons hd tl ih =>
    intro d v w hch
    obtain ⟨d2, v2⟩ := hd
    have h1 : d2 = d + 1 := (List.chain'_cons.mp hch).1
    subst h1
    have h2 := (List.chain'_cons.mp hch).2
    show ffillGo (tl.length + 1 + 1) d w ((d, v) :: (d + 1, v2) :: tl) = _
    rw [ffillGo, if_pos (le_refl d)]
    rw [ih (d + 1) v2 v h2]

theorem lookup_map_self (f : Nat → Option ℝ) :
    ∀ (ys : List Nat) (y : Nat), y ∈ ys →
    (ys.map fun z => (z, f z)).lookup y = some (f y) := by
  intro ys
  induction ys with
  | nil => intro y hy; cases hy
  | cons z zs ih =>
    intro y hy
    by_cases hz : y = z
    · subst hz; simp [List.lookup]
    · have hmem : y ∈ zs := by
        cases hy with
        | head => exact absurd rfl hz
        | tail _ h => exact h
      have hbz : (y == z) = false := by simpa using hz
      simp [List.lookup, hbz, ih y hmem]

theorem lookup_map_forces (f : Nat → Option ℝ) :
    ∀ (ys : List Nat) (y : Nat) (w : Option ℝ),
    (ys.map fun z => (z, f z)).lookup y = some w → w = f y := by
  intro ys
  induction ys with
  | nil => intro y w h; simp [List.lookup] at h
  | cons z zs ih =>
    intro y w h
    by_cases hz : y = z
    · subst hz
      simp [List.lookup] at h
      exact h.symm
    · have hbz : (y == z) = false := by simpa using hz
      simp [List.lookup, hbz] at h
      exact ih y w h

theorem calculate_cagr_eq (hst : History) (col : String) (years : List Nat)
    (hcol : findAdjCol hst.columns = some col) (hne : hst.index.length ≠ 0) :
    calculate_cagr hst years =
      some (years.map fun yr =>
        (yr, cagrEntry (((hst.data.lookup col).getD []).getLastD 0)
          (resample1Dffill (hst.index.zip ((hst.data.lookup col).getD []))) yr)) := by
  unfold calculate_cagr
  rw [hcol]
  simp [hne]

theorem cagrEntry_eq_none_iff (e : ℚ) (sp : List (Nat × ℚ)) (yr : Nat) :
    cagrEntry e sp yr = none ↔ sp.length < 252 * yr := by
  unfold cagrEntry
  split <;> simp <;> omega

theorem calculate_annual_volatility_eq (hst : History) (col : String)
    (hcol : findAdjCol hst.columns = some col) (hlen : 2 ≤ hst.index.length) :
    calculate_annual_volatility hst =
      some (round2 (npStd (pct_change ((hst.data.lookup col).getD []))
        * Real.sqrt 252 * 100)) := by
  unfold calculate_annual_volatility
  rw [hcol]
  have h2 : ¬ hst.index.length < 2 := by omega
  simp [h2]

theorem pctGo_spec (rest : List ℚ) : ∀ (prev : ℚ), prev ≠ 0 → (∀ x ∈ rest, x ≠ 0) →
    pctGo prev rest =
      List.zipWith (fun prev cur => (cur - prev) / prev) (prev :: rest) rest := by
  induction rest with
  | nil => intro prev _ _; rfl
  | cons y tl ih =>
    intro prev hp hall
    show (y / prev - 1) :: pctGo y tl =
      ((y - prev) / prev) :: List.zipWith _ (y :: tl) tl
    have hy : y ≠ 0 := hall y (List.mem_cons_self _ _)
    rw [ih y hy fun x hx => hall x (List.mem_cons_of_mem _ hx)]
    congr 1
    rw [sub_div, div_self hp]

theorem pct_change_spec (xs : List ℚ) (hall : ∀ x ∈ xs, x ≠ 0) :
    pct_change xs = specReturns xs := by
  cases xs with
  | nil => rfl
  | cons x rest =>
    show pctGo x rest = _
    unfold specReturns
    simp only [List.tail_cons]
    exact pctGo_spec rest x (hall x (List.mem_cons_self _ _))
      fun y hy => hall y (List.mem_cons_of_mem _ hy)

theorem pctGo_scale (c : ℚ) (hc : c ≠ 0) (rest : List ℚ) : ∀ (prev : ℚ),
    pctGo (c * prev) (rest.map fun x => c * x) = pctGo prev rest := by
  induction rest with
  | nil => intro prev; rfl
  | cons y tl ih =>
    intro prev
    show (c * y / (c * prev) - 1) :: pctGo (c * y) (tl.map fun x => c * x) =
      (y / prev - 1) :: pctGo y tl
    rw [mul_div_mul_left y prev hc, ih y]

theorem pct_change_scale (c : ℚ) (hc : c ≠ 0) (xs : List ℚ) :
    pct_change (xs.map fun x => c * x) = pct_change xs := by
  cases xs with
  | nil => rfl
  | cons x rest => exact pctGo_scale c hc rest x

theorem lookup_scale (c : ℚ) (col : String) (l : List (String × List ℚ)) :
    (l.map fun p =>
      if p.fst = col then (p.fst, p.snd.map fun x => c * x) else p).lookup col
      = (l.lookup col).map fun vs => vs.map fun x => c * x := by
  induction l with
  | nil => rfl
  | cons p tl ih =>
    obtain ⟨k, vs⟩ := p
    simp only [List.map_cons]
    by_cases hk : k = col
    · subst hk
      rw [if_pos rfl]
      simp [List.lookup]
    · rw [if_neg hk]
      have hbz : (col == k) = false := by simp [Ne.symm hk]
      simp [List.lookup, hbz, ih]

/-- C3: for every price series with a resolvable adjusted-close column and at
least 2 observations (all adjusted closes positive, as in the data model),
`calculate_annual_volatility` returns the population standard deviation
(dividing by `N`) of the day-over-day percentage changes `(cur - prev) / prev`
of adjusted close (the first observation dropped), multiplied by `sqrt 252`,
converted to a percentage and rounded to 2 decimal places. -/
theorem annual_volatility_formula (hst : History) (col : String) (vals : List ℚ)
    (hcol : findAdjCol hst.columns = some col)
    (hvals : hst.data.lookup col = some vals)
    (hlen : 2 ≤ hst.index.length)
    (hpos : ∀ x ∈ vals, 0 < x) :
    calculate_annual_volatility hst =
      some (round2 (Real.sqrt
        ((((specReturns vals).map fun r => (r - listMean (specReturns vals)) ^ 2).sum
            / ((specReturns vals).length : ℚ) : ℚ) : ℝ)
        * Real.sqrt 252 * 100)) := by
  rw [calculate_annual_volatility_eq hst col hcol hlen, hvals]
  have h0 : ∀ x ∈ vals, x ≠ 0 := fun x hx => ne_of_gt (hpos x hx)
  simp only [Option.getD_some]
  rw [pct_change_spec vals h0]
  rfl

/-- C3 witness: the theorem applied to a concrete two-observation history. -/
theorem annual_volatility_formula_witness :
    findAdjCol hist1.columns = some "Adj Close" ∧
    hist1.data.lookup "Adj Close" = some [100, 110] ∧
    2 ≤ hist1.index.length ∧ (∀ x ∈ ([100, 110] : List ℚ), 0 < x) ∧
    calculate_annual_volatility hist1 =
      some (round2 (Real.sqrt
        ((((specReturns [100, 110]).map
              fun r => (r - listMean (specReturns [100, 110])) ^ 2).sum
            / ((specReturns [100, 110]).length : ℚ) : ℚ) : ℝ)
        * Real.sqrt 252 * 100)) :=
  ⟨by decide, by decide, by decide, by decide,
    annual_volatility_formula hist1 "Adj Close" [100, 110]
      (by decide) (by decide) (by decide) (by decide)⟩

/-- C5: with a resolvable adjusted-close column, `calculate_annual_volatility`
returns `none` ("not available") exactly when the series has fewer than 2
observations, and a numeric percentage otherwise. -/
theorem volatility_none_iff_short (hst : History) (col : String)
    (hcol : findAdjCol hst.columns = some col) :
    calculate_annual_volatility hst = none ↔ hst.index.length < 2 := by
  unfold calculate_annual_volatility
  rw [hcol]
  by_cases hlen : hst.index.length < 2
  · simp [hlen]
  · simp [hlen]

/-- C5 witness: the theorem applied to a concrete two-observation history. -/
theorem volatility_none_iff_short_witness :
    findAdjCol hist1.columns = some "Adj Close" ∧
    (calculate_annual_volatility hist1 = none ↔ hist1.index.length < 2) :=
  ⟨by decide, volatility_none_iff_short hist1 "Adj Close" (by decide)⟩

/-- C9: `calculate_annual_volatility` is invariant under multiplying every
value of the resolved adjusted-close column by a positive constant. -/
theorem volatility_scale_invariant (hst : History) (col : String) (c : ℚ)
    (hcol : findAdjCol hst.columns = some col) (hc : 0 < c) :
    calculate_annual_volatility (scaleCol c col hst) =
      calculate_annual_volatility hst := by
  have hc0 : c ≠ 0 := ne_of_gt hc
  have hdata : pct_change (((scaleCol c col hst).data.lookup col).getD []) =
      pct_change ((hst.data.lookup col).getD []) := by
    show pct_change ((List.lookup col (hst.data.map fun p =>
      if p.fst = col then (p.fst, p.snd.map fun x => c * x) else p)).getD []) = _
    rw [lookup_scale c col hst.data]
    cases hst.data.lookup col with
    | none => rfl
    | some vs =>
      show pct_change (vs.map fun x => c * x) = pct_change vs
      exact pct_change_scale c hc0 vs
  unfold calculate_annual_volatility
  rw [show (scaleCol c col hst).columns = hst.columns from rfl, hcol]
  rw [show (scaleCol c col hst).index = hst.index from rfl]
  by_cases hlen : hst.index.length < 2
  · simp [hlen]
  · simp only [if_neg hlen]
    rw [hdata]

/-- C9 witness: the theorem applied to a concrete history and `c = 2`. -/
theorem volatility_scale_invariant_witness :
    findAdjCol hist1.columns = some "Adj Close" ∧ (0 : ℚ) < 2 ∧
    calculate_annual_volatility (scaleCol 2 "Adj Close" hist1) =
      calculate_annual_volatility hist1 :=
  ⟨by decide, by decide,
    volatility_scale_invariant hist1 "Adj Close" 2 (by decide) (by decide)⟩

/-- C1: with a resolvable adjusted-close column and at least one observation,
`calculate_cagr` marks a requested horizon `yr` "N/A" (`none`) if and only if
the forward-filled daily-resampled adjusted-close series has fewer than
`252 * yr` observations. -/
theorem cagr_na_iff_resampled_short (hst : History) (col : String)
    (years : List Nat) (yr : Nat)
    (hcol : findAdjCol hst.columns = some col)
    (hne : hst.index.length ≠ 0) (hmem : yr ∈ years) :
    ∃ res, calculate_cagr hst years = some res ∧
      (res.lookup yr = some none ↔
        (resample1Dffill (hst.index.zip ((hst.data.lookup col).getD []))).length
          < 252 * yr) := by
  refine ⟨_, calculate_cagr_eq hst col years hcol hne, ?_⟩
  rw [lookup_map_self _ years yr hmem, Option.some_inj]
  exact cagrEntry_eq_none_iff _ _ _

/-- C1 witness: a two-day history has a 2-entry resampled series, so the
1-year horizon is marked "N/A". -/
theorem cagr_na_iff_resampled_short_witness :
    findAdjCol hist1.columns = some "Adj Close" ∧ hist1.index.length ≠ 0 ∧
    (1 : Nat) ∈ [1] ∧
    (∃ res, calculate_cagr hist1 [1] = some res ∧
      (res.lookup 1 = some none ↔
        (resample1Dffill (hist1.index.zip
          ((hist1.data.lookup "Adj Close").getD []))).length < 252 * 1)) :=
  ⟨by decide, by decide, by decide,
    cagr_na_iff_resampled_short hist1 "Adj Close" [1] 1
      (by decide) (by decide) (by decide)⟩

/-- C2: with a resolvable adjusted-close column and enough resampled history,
the value `calculate_cagr` reports for a horizon `yr` is
`((end / start) ^ (1 / yr) - 1) * 100` rounded to 2 decimals, where `end` is
the adjusted close of the last observation of the raw series and `start` is
the adjusted close at position `252 * yr` counting 1-indexed from the end of
the forward-filled daily-resampled series. -/
theorem cagr_value_formula (hst : History) (col : String) (vals : List ℚ)
    (years : List Nat) (yr : Nat)
    (hcol : findAdjCol hst.columns = some col)
    (hvals : hst.data.lookup col = some vals)
    (hvne : vals ≠ [])
    (hne : hst.index.length ≠ 0)
    (hmem : yr ∈ years)
    (_hpos : 0 < yr)
    (hlen : 252 * yr ≤ (resample1Dffill (hst.index.zip vals)).length) :
    ∃ res, calculate_cagr hst years = some res ∧
      res.lookup yr = some (some (round2
        (((((vals.getLast hvne : ℚ) : ℝ) /
            (((resample1Dffill (hst.index.zip vals)).getD
              ((resample1Dffill (hst.index.zip vals)).length - 252 * yr)
              (0, 0)).snd : ℝ))
          ^ ((1 : ℝ) / (yr : ℝ)) - 1) * 100))) := by
  refine ⟨_, calculate_cagr_eq hst col years hcol hne, ?_⟩
  rw [lookup_map_self _ years yr hmem, hvals]
  simp only [Option.getD_some]
  have hlast : vals.getLastD 0 = vals.getLast hvne := by
    rw [List.getLastD_eq_getLast?, List.getLast?_eq_getLast vals hvne,
      Option.getD_some]
  rw [hlast]
  unfold cagrEntry
  rw [if_pos hlen]
  simp only [cagrOf, ilocNeg]

set_option maxRecDepth 2000 in
/-- C2 witness: two observations 251 days apart give exactly 252 resampled
days, so the 1-year horizon qualifies and the formula instance holds. -/
theorem cagr_value_formula_witness :
    findAdjCol hist252.columns = some "Adj Close" ∧
    hist252.data.lookup "Adj Close" = some [100, 110] ∧
    ([100, 110] : List ℚ) ≠ [] ∧ hist252.index.length ≠ 0 ∧
    (1 : Nat) ∈ [1] ∧ 0 < 1 ∧
    252 * 1 ≤ (resample1Dffill (hist252.index.zip [100, 110])).length ∧
    (∃ res, calculate_cagr hist252 [1] = some res ∧
      res.lookup 1 = some (some (round2
        ((((((([100, 110] : List ℚ).getLast (by decide) : ℚ)) : ℝ) /
            (((resample1Dffill (hist252.index.zip [100, 110])).getD
              ((resample1Dffill (hist252.index.zip [100, 110])).length - 252 * 1)
              (0, 0)).snd : ℝ))
          ^ ((1 : ℝ) / ((1 : Nat) : ℝ)) - 1) * 100)))) :=
  ⟨by decide, by decide, by decide, by decide, by decide, by decide, by decide,
    cagr_value_formula hist252 "Adj Close" [100, 110] [1] 1
      (by decide) (by decide) (by decide) (by decide) (by decide) (by decide)
      (by decide)⟩

set_option maxRecDepth 2000 in
/-- C4 counterexample: `histGap` has only 2 raw trading observations, fewer
than `252 * 1`, yet `calculate_cagr` reports a numeric value for the 1-year
horizon (its resampled series spans 256 calendar days), so the raw-count
reading of the availability rule is false. -/
theorem cagr_raw_count_counterexample :
    histGap.index.length < 252 * 1 ∧
    ∃ res, calculate_cagr histGap [1] = some res ∧ res.lookup 1 ≠ some none := by
  refine ⟨by decide,
    ⟨_, calculate_cagr_eq histGap "Adj Close" [1] (by decide) (by decide), ?_⟩⟩
  rw [lookup_map_self _ [1] 1 (by decide)]
  intro hcontra
  have h1 := Option.some_inj.mp hcontra
  have h2 := (cagrEntry_eq_none_iff _ _ _).mp h1
  have h3 : (resample1Dffill (histGap.index.zip
      ((histGap.data.lookup "Adj Close").getD []))).length = 256 := by decide
  omega

/-- C4 amended: with a resolvable adjusted-close column and at least one
observation, whenever the forward-filled daily-resampled series has fewer
than `252 * yr` observations, `calculate_cagr` marks horizon `yr` "N/A". -/
theorem cagr_na_of_resampled_short (hst : History) (col : String)
    (years : List Nat) (yr : Nat)
    (hcol : findAdjCol hst.columns = some col)
    (hne : hst.index.length ≠ 0) (hmem : yr ∈ years)
    (hshort : (resample1Dffill
      (hst.index.zip ((hst.data.lookup col).getD []))).length < 252 * yr) :
    ∃ res, calculate_cagr hst years = some res ∧ res.lookup yr = some none := by
  refine ⟨_, calculate_cagr_eq hst col years hcol hne, ?_⟩
  rw [lookup_map_self _ years yr hmem,
    (cagrEntry_eq_none_iff _ _ _).mpr hshort]

/-- C4 witness: the amended statement applied to a concrete short history. -/
theorem cagr_na_of_resampled_short_witness :
    findAdjCol hist1.columns = some "Adj Close" ∧ hist1.index.length ≠ 0 ∧
    (1 : Nat) ∈ [1] ∧
    (resample1Dffill (hist1.index.zip
      ((hist1.data.lookup "Adj Close").getD []))).length < 252 * 1 ∧
    (∃ res, calculate_cagr hist1 [1] = some res ∧ res.lookup 1 = some none) :=
  ⟨by decide, by decide, by decide, by decide,
    cagr_na_of_resampled_short hist1 "Adj Close" [1] 1
      (by decide) (by decide) (by decide) (by decide)⟩

/-- C6: when no column of the history normalises to `"adjclose"`, both
`calculate_cagr` and `calculate_annual_volatility` return `none` (no result,
rather than an error: both functions are total in this embedding and bail out
before touching any data). -/
theorem no_adjclose_returns_none (hst : History) (years : List Nat)
    (hnone : ∀ c ∈ hst.columns, normName c ≠ "adjclose") :
    calculate_cagr hst years = none ∧ calculate_annual_volatility hst = none := by
  have h : findAdjCol hst.columns = none := by
    rw [findAdjCol, List.find?_eq_none]
    intro c hc
    simpa using hnone c hc
  constructor
  · unfold calculate_cagr; rw [h]
  · unfold calculate_annual_volatility; rw [h]

/-- C6 witness: a history whose columns are `Open` and `Close` only. -/
theorem no_adjclose_returns_none_witness :
    (∀ c ∈ histNoAdj.columns, normName c ≠ "adjclose") ∧
    calculate_cagr histNoAdj [1, 3, 5] = none ∧
    calculate_annual_volatility histNoAdj = none :=
  ⟨by decide, no_adjclose_returns_none histNoAdj [1, 3, 5] (by decide)⟩

/-- C7: for the empty series (zero observations), both `calculate_cagr` (for
any requested horizons) and `calculate_annual_volatility` return `none`;
both functions are total in this embedding, so no exception can arise. -/
theorem empty_series_returns_none (hst : History) (years : List Nat)
    (hempty : hst.index = []) :
    calculate_cagr hst years = none ∧ calculate_annual_volatility hst = none := by
  have hlen : hst.index.length = 0 := by rw [hempty]; rfl
  constructor
  · unfold calculate_cagr
    cases findAdjCol hst.columns with
    | none => rfl
    | some c => simp [hlen]
  · unfold calculate_annual_volatility
    cases findAdjCol hst.columns with
    | none => rfl
    | some c => simp [hlen]

/-- C7 witness: the empty history with horizons `[1, 3, 5]`. -/
theorem empty_series_returns_none_witness :
    histEmpty.index = [] ∧
    calculate_cagr histEmpty [1, 3, 5] = none ∧
    calculate_annual_volatility histEmpty = none :=
  ⟨by decide, empty_series_returns_none histEmpty [1, 3, 5] (by decide)⟩

/-- C8: the forward-fill daily resampling step used by `calculate_cagr` is
the identity on a series that already has exactly one observation per
calendar day between its first and last date. -/
theorem resample_consecutive_noop (xs : List (Nat × ℚ))
    (hchain : List.Chain' (fun p q => q.fst = p.fst + 1) xs) :
    resample1Dffill xs = xs := by
  cases xs with
  | nil => rfl
  | cons hd rest =>
    obtain ⟨d0, v0⟩ := hd
    have hl := lastDate_chain rest d0 v0 hchain
    show ffillGo (lastDate ((d0, v0) :: rest) + 1 - d0) d0 v0 ((d0, v0) :: rest) =
      (d0, v0) :: rest
    rw [hl]
    have harith : d0 + rest.length + 1 - d0 = rest.length + 1 := by omega
    rw [harith]
    exact ffillGo_chain rest d0 v0 v0 hchain

/-- C8 witness: three observations on consecutive days are left unchanged. -/
theorem resample_consecutive_noop_witness :
    List.Chain' (fun p q => q.fst = p.fst + 1)
      [((0 : Nat), (100 : ℚ)), (1, 101), (2, 99)] ∧
    resample1Dffill [((0 : Nat), (100 : ℚ)), (1, 101), (2, 99)] =
      [(0, 100), (1, 101), (2, 99)] :=
  ⟨by simp [List.chain'_cons], resample_consecutive_noop _ (by simp [List.chain'_cons])⟩

/-- C10: availability is antitone in the horizon: if `calculate_cagr` reports
a numeric value for horizon `h`, it reports a numeric value for any smaller
requested horizon `h'` as well. -/
theorem cagr_availability_antitone (hst : History) (years : List Nat)
    (res : List (Nat × Option ℝ)) (h h' : Nat) (v : ℝ)
    (hres : calculate_cagr hst years = some res)
    (hv : res.lookup h = some (some v))
    (hmem : h' ∈ years) (_hpos : 0 < h') (hle : h' ≤ h) :
    ∃ v', res.lookup h' = some (some v') := by
  rcases hcolcase : findAdjCol hst.columns with _ | col
  · rw [calculate_cagr, hcolcase] at hres
    cases hres
  · by_cases hzero : hst.index.length = 0
    · rw [calculate_cagr, hcolcase] at hres
      simp [hzero] at hres
    · have heq := calculate_cagr_eq hst col years hcolcase hzero
      rw [heq] at hres
      have hres2 := Option.some_inj.mp hres
      rw [← hres2] at hv ⊢
      have hfh := lookup_map_forces _ years h (some v) hv
      have hlenh : 252 * h ≤ (resample1Dffill
          (hst.index.zip ((hst.data.lookup col).getD []))).length := by
        by_contra hcon
        push_neg at hcon
        rw [(cagrEntry_eq_none_iff _ _ h).mpr hcon] at hfh
        cases hfh
      have hlenh' : 252 * h' ≤ (resample1Dffill
          (hst.index.zip ((hst.data.lookup col).getD []))).length :=
        le_trans (by omega) hlenh
      have hlook := lookup_map_self
        (fun yr => cagrEntry (((hst.data.lookup col).getD []).getLastD 0)
          (resample1Dffill (hst.index.zip ((hst.data.lookup col).getD []))) yr)
        years h' hmem
      have hsome : cagrEntry (((hst.data.lookup col).getD []).getLastD 0)
          (resample1Dffill (hst.index.zip ((hst.data.lookup col).getD []))) h'
          = some (round2 (cagrOf (((hst.data.lookup col).getD []).getLastD 0)
              (ilocNeg (resample1Dffill
                (hst.index.zip ((hst.data.lookup col).getD []))) (252 * h'))
              h' * 100)) := by
        unfold cagrEntry
        rw [if_pos hlenh']
      exact ⟨_, by rw [hlook]; exact congrArg some hsome⟩

/-- C10 witness: on a history whose resampled series has 504 days, the 2-year
horizon is numeric, and the theorem yields a numeric 1-year entry. -/
theorem cagr_availability_antitone_witness :
    calculate_cagr hist504 [1, 2] = some res504 ∧
    res504.lookup 2 = some (some (round2
      (cagrOf 110 (ilocNeg sp504 (252 * 2)) 2 * 100))) ∧
    (1 : Nat) ∈ [1, 2] ∧ 0 < 1 ∧ 1 ≤ 2 ∧
    (∃ v', res504.lookup 1 = some (some v')) := by
  have hres : calculate_cagr hist504 [1, 2] = some res504 := by
    rw [calculate_cagr_eq hist504 "Adj Close" [1, 2] (by decide) (by decide)]
    rfl
  have hlen504 : sp504.length = 504 := by
    show (resample1Dffill (hist504.index.zip [100, 110])).length = 504
    rw [show hist504.index.zip ([100, 110] : List ℚ) = [(0, 100), (503, 110)]
      from rfl]
    rw [resample_length]
    decide
  have he2 : cagrEntry 110 sp504 2 = some (round2
      (cagrOf 110 (ilocNeg sp504 (252 * 2)) 2 * 100)) := by
    unfold cagrEntry
    rw [if_pos (by rw [hlen504])]
  have hv : res504.lookup 2 = some (some (round2
      (cagrOf 110 (ilocNeg sp504 (252 * 2)) 2 * 100))) := by
    show List.lookup 2 [(1, cagrEntry 110 sp504 1), (2, cagrEntry 110 sp504 2)] = _
    simp [List.lookup, he2]
  exact ⟨hres, hv, by decide, by decide, by decide,
    cagr_availability_antitone hist504 [1, 2] res504 2 1 _ hres hv
      (by decide) (by decide) (by decide)⟩

end Machelohub
